import Mathlib

/-!
Shallow embedding of `Metagenomics_pipeline/kraken_abundance_pipeline.py`.

Strings are Lean `String`s (lists of characters); the Python string
primitives used by the source (`str.split(sep)`, `str.strip()`, `str.join`,
`int(...)`, `str.endswith`, `os.path.join`) are re-implemented by structural
recursion over `List Char` so that every definition evaluates inside the
kernel.  Python `dict`s are insertion-ordered association lists: an update of
an existing key rewrites the value in place, a new key is appended, matching
CPython semantics.  Fallible code (field accesses beyond the end of a split
line, `int()` on a non-numeric string) is modelled with `Option`.
-/

namespace Kraken

/-- Python `s.split(sep)` on character lists, for a one-character separator:
no collapsing of adjacent separators, the empty input yields `[[]]`. -/
def splitChar (sep : Char) : List Char → List (List Char)
  | [] => [[]]
  | c :: cs =>
    match splitChar sep cs with
    | [] => [[]]
    | h :: t => if c = sep then [] :: h :: t else (c :: h) :: t

/-- Python `sep.join(parts)` on character lists. -/
def joinChar (sep : Char) : List (List Char) → List Char
  | [] => []
  | [x] => x
  | x :: y :: t => x ++ sep :: joinChar sep (y :: t)

/-- Drop leading whitespace characters. -/
def dropLeadingWs : List Char → List Char
  | [] => []
  | c :: cs => if c.isWhitespace then dropLeadingWs cs else c :: cs

/-- Python `s.strip()`: remove leading and trailing whitespace. -/
def pyStrip (s : String) : String :=
  String.mk ((dropLeadingWs (dropLeadingWs s.data).reverse).reverse)

/-- Python `s.split(sep)` for a one-character separator. -/
def pySplit (s : String) (sep : Char) : List String :=
  (splitChar sep s.data).map String.mk

/-- Python `sep.join(parts)` for a one-character separator. -/
def pyJoin (sep : Char) (parts : List String) : String :=
  String.mk (joinChar sep (parts.map String.data))

/-- Python `s.endswith(t)`. -/
def strEndsWith (s t : String) : Bool :=
  List.isSuffixOf t.data s.data

/-- Python `s.startswith(t)`. -/
def strStartsWith (s t : String) : Bool :=
  List.isPrefixOf t.data s.data

/-- Value of a decimal digit character. -/
def digitVal (c : Char) : Nat := c.toNat - '0'.toNat

/-- Read a nonempty run of decimal digits as a natural number. -/
def natFromDigits : List Char → Nat → Option Nat
  | [], acc => some acc
  | c :: cs, acc =>
    if c.isDigit then natFromDigits cs (acc * 10 + digitVal c) else none

/-- Python `int(s)`: optional surrounding whitespace, optional sign, decimal
digits; anything else raises (here: `none`). -/
def pyInt (s : String) : Option Int :=
  match (pyStrip s).data with
  | '-' :: cs =>
    if cs.isEmpty then none else (natFromDigits cs 0).map (fun v => -(v : Int))
  | '+' :: cs =>
    if cs.isEmpty then none else (natFromDigits cs 0).map (fun v => (v : Int))
  | cs =>
    if cs.isEmpty then none else (natFromDigits cs 0).map (fun v => (v : Int))

/-- POSIX `os.path.join` for two components. -/
def pyPathJoin (a b : String) : String :=
  if strStartsWith b "/" then b
  else if a = "" then b
  else if strEndsWith a "/" then a ++ b
  else a ++ "/" ++ b

/-- Does the character sequence `pat` occur contiguously inside `l`? -/
def containsSeq (pat : List Char) : List Char → Bool
  | [] => pat.isEmpty
  | c :: cs => List.isPrefixOf pat (c :: cs) || containsSeq pat cs

/-- pandas `Series.str.contains(pat, case=False)` for a plain (non-regex
special) pattern: case-insensitive substring test. -/
def pyContainsCI (s pat : String) : Bool :=
  containsSeq (pat.data.map Char.toLower) (s.data.map Char.toLower)

/-- The six positional fields the source reads from one report line, with the
third field converted by `int(...)`. -/
structure ParsedLine where
  perc_frag_cover : String
  nr_frag_cover : String
  nr_frag_direct_at_taxon : Int
  rank_code : String
  ncbi_ID : String
  scientific_name : String
deriving DecidableEq, Repr

/-- `fields = line.strip().split('\x09')` followed by the six positional
accesses `fields[0] .. fields[5]` and `int(fields[2])`; any missing field or
failed conversion is an uncaught Python exception, modelled as `none`. -/
def parseReportLine (line : String) : Option ParsedLine := do
  let fields := pySplit (pyStrip line) '\t'
  let f0 ← fields[0]?
  let f1 ← fields[1]?
  let f2 ← fields[2]?
  let f3 ← fields[3]?
  let f4 ← fields[4]?
  let f5 ← fields[5]?
  let n ← pyInt f2
  pure ⟨f0, f1, n, f3, f4, f5⟩

/-- The metadata CSV as loaded by `pd.read_csv`: a header of column names
(the first is the sample-id column) and rows of cells aligned with it. -/
structure Metadata where
  columns : List String
  rows : List (List String)
deriving DecidableEq, Repr

/-- `metadata.loc[metadata[sample_id_col] == sid].iloc[0]`: the first row
whose first cell is `sid`; `isSome` of this is the membership test
`sid in metadata[sample_id_col].unique()`. -/
def metaLookup (m : Metadata) (sid : String) : Option (List String) :=
  m.rows.find? (fun r => r.head? = some sid)

/-- One file of the report directory: its name and its lines. -/
structure FileEntry where
  name : String
  lines : List String
deriving DecidableEq, Repr

/-- A Python `dict` with string keys: insertion-ordered association list. -/
abbrev Record := List (String × String)

/-- The `aggregated_results` dictionary: key, record pairs. -/
abbrev AggMap := List (String × Record)

/-- CPython `d[k] = v`: rewrite the value in place when `k` is present,
append `(k, v)` otherwise. -/
def odInsert {α : Type} (d : List (String × α)) (k : String) (v : α) :
    List (String × α) :=
  if k ∈ d.map Prod.fst then
    d.map (fun p => if p.1 = k then (k, v) else p)
  else d ++ [(k, v)]

/-- The keys of an association list, in order. -/
def keysOf {α : Type} (d : List (String × α)) : List String :=
  d.map Prod.fst

/-- `metadata.loc[...].iloc[0].to_dict()`: the metadata row as a dict from
column name to cell. -/
def sampleMetaDict (m : Metadata) (row : List String) : Record :=
  (m.columns.zip row).foldl (fun d p => odInsert d p.1 p.2) []

/-- The record dict literal of the source: the seven fixed entries followed
by `**sample_metadata` (later keys overwrite earlier ones in place). -/
def mkRecord (pl : ParsedLine) (ext : String) (sampleMeta : Record) : Record :=
  let base : Record :=
    [("Perc_frag_cover", pl.perc_frag_cover),
     ("Nr_frag_cover", pl.nr_frag_cover),
     ("Nr_frag_direct_at_taxon", toString pl.nr_frag_direct_at_taxon),
     ("Rank_code", pl.rank_code),
     ("NCBI_ID", pl.ncbi_ID),
     ("Scientific_name", pl.scientific_name),
     ("SampleID", ext)]
  sampleMeta.foldl (fun d p => odInsert d p.1 p.2) base

/-- `parts = file_name.split('_'); extracted_part = '_'.join(parts[:-1])`. -/
def extracted_part (file_name : String) : String :=
  pyJoin '_' ((pySplit file_name '_').dropLast)

/-- The body of the per-line `if` chain: store the merged record when the
rank is `'S'`, the direct count reaches `read_count`, and the derived sample
id has a metadata row; otherwise leave the dictionary unchanged. -/
def lineStep (m : Metadata) (read_count : Int) (file_name : String)
    (acc : AggMap) (pl : ParsedLine) : AggMap :=
  let ext := extracted_part file_name
  if pl.rank_code = "S" ∧ read_count ≤ pl.nr_frag_direct_at_taxon then
    match metaLookup m ext with
    | some row =>
        odInsert acc (ext ++ pl.ncbi_ID) (mkRecord pl ext (sampleMetaDict m row))
    | none => acc
  else acc

/-- Process one raw line: parse it (propagating a parse failure), then apply
the filtered store. -/
def processLine (m : Metadata) (read_count : Int) (file_name : String)
    (acc : AggMap) (line : String) : Option AggMap :=
  (parseReportLine line).map (lineStep m read_count file_name acc)

/-- `for line in f:` over one report file. -/
def processLines (m : Metadata) (read_count : Int) (file_name : String) :
    AggMap → List String → Option AggMap
  | acc, [] => some acc
  | acc, l :: ls =>
    match processLine m read_count file_name acc l with
    | some acc2 => processLines m read_count file_name acc2 ls
    | none => none

/-- `for file_name in os.listdir(kraken_dir): if file_name.endswith("_report.txt"): ...`. -/
def processFiles (m : Metadata) (read_count : Int) :
    AggMap → List FileEntry → Option AggMap
  | acc, [] => some acc
  | acc, f :: fs =>
    if strEndsWith f.name "_report.txt" then
      match processLines m read_count f.name acc f.lines with
      | some acc2 => processFiles m read_count acc2 fs
      | none => none
    else processFiles m read_count acc fs

/-- The header list written to the merged TSV: seven fixed names followed by
`metadata.columns[1:]`. -/
def headers (m : Metadata) : List String :=
  ["Perc_frag_cover", "Nr_frag_cover", "Nr_frag_direct_at_taxon",
   "Rank_code", "NCBI_ID", "Scientific_name", "SampleID"] ++ m.columns.tail

/-- `data[col]` on a record dict (every written column is present in every
record by construction, so the default is never consulted on source-reachable
states). -/
def dget (d : Record) (k : String) : String :=
  ((d.find? (fun p => p.1 = k)).map Prod.snd).getD ""

/-- One data row of the merged TSV. -/
def renderRow (hdr : List String) (d : Record) : String :=
  String.intercalate "\t" (hdr.map (fun c => dget d c))

/-- `aggregate_kraken_results`: the content of `merged_kraken1.tsv` (header
line, then one line per aggregated record in dictionary order), or `none`
when a report line fails to parse. -/
def aggregate_kraken_results (files : List FileEntry) (metadata : Metadata)
    (read_count : Int) : Option String :=
  (processFiles metadata read_count [] files).map (fun agg =>
    String.intercalate "\t" (headers metadata) ++ "\n" ++
    String.join (agg.map (fun p => renderRow (headers metadata) p.2 ++ "\n")))

/-- The key a line would produce: derived sample id concatenated with the
taxon id, when the line parses at all. -/
def lineKeyOf (file_name line : String) : Option String :=
  (parseReportLine line).map (fun pl => extracted_part file_name ++ pl.ncbi_ID)

/-- The key stored for a parsed line when and only when it passes the rank,
threshold and metadata-membership filters. -/
def qualKeyP (m : Metadata) (read_count : Int) (file_name : String)
    (pl : ParsedLine) : Option String :=
  if pl.rank_code = "S" ∧ read_count ≤ pl.nr_frag_direct_at_taxon ∧
      (metaLookup m (extracted_part file_name)).isSome then
    some (extracted_part file_name ++ pl.ncbi_ID)
  else none

/-- `qualKeyP` on a raw line. -/
def qualKey (m : Metadata) (read_count : Int) (file_name line : String) :
    Option String :=
  (parseReportLine line).bind (qualKeyP m read_count file_name)

/-- The keys of all qualifying lines of all report-suffixed files, in
file/line encounter order (with multiplicity). -/
def qualKeySeq (m : Metadata) (read_count : Int) : List FileEntry → List String
  | [] => []
  | f :: fs =>
    if strEndsWith f.name "_report.txt" then
      f.lines.filterMap (qualKey m read_count f.name) ++ qualKeySeq m read_count fs
    else qualKeySeq m read_count fs

/-- Extend a key list by new keys, skipping those already present (the key
order a sequence of CPython dict stores produces). -/
def dedupExtend (ks : List String) (l : List String) : List String :=
  l.foldl (fun acc k => if k ∈ acc then acc else acc ++ [k]) ks

/-- First-occurrence deduplication of a list of keys. -/
def firstDedup (l : List String) : List String := dedupExtend [] l

/-- The three external collaborators `process_sample` can call.  Their code
lives in sibling modules (`trimmomatic.py`, `bowtie2.py`, `kraken2.py`) that
wrap command-line tools; the spec scopes them out as opaque, so they are
oracle parameters here, applied to exactly the arguments the source passes. -/
structure ExtTools where
  run_trimmomatic : String → String → String → String → Nat → String × String
  run_bowtie2 : String → String → String → String → String → Nat → String × String
  run_kraken2 : String → String → String → String → String → Nat → String

/-- `process_sample`: returns the list of external tools invoked (in call
order) together with the produced report path, or the `FileNotFoundError`
message when a precomputed report is missing. -/
def process_sample (tools : ExtTools) (fsExists : String → Bool)
    (forward reverse base_name bowtie2_index kraken_db output_dir : String)
    (threads : Nat) (run_bowtie use_precomputed_reports : Bool) :
    List String × Except String String :=
  if ¬ use_precomputed_reports then
    let tr := tools.run_trimmomatic forward reverse base_name output_dir threads
    let unmapped :=
      if run_bowtie then
        tools.run_bowtie2 tr.1 tr.2 base_name bowtie2_index output_dir threads
      else tr
    let kraken_report :=
      tools.run_kraken2 unmapped.1 unmapped.2 base_name kraken_db output_dir threads
    ((if run_bowtie then ["run_trimmomatic", "run_bowtie2", "run_kraken2"]
      else ["run_trimmomatic", "run_kraken2"]),
     Except.ok kraken_report)
  else
    let kraken_report := pyPathJoin output_dir (base_name ++ "_report.txt")
    if fsExists kraken_report then ([], Except.ok kraken_report)
    else ([], Except.error ("Precomputed Kraken2 report not found: " ++ kraken_report))

/-- One row of the merged table as `generate_abundance_plots` sees it: the
`Scientific_name` cell, the `Nr_frag_direct_at_taxon` measure, and the other
object-dtype (categorical) cells keyed by column name. -/
structure PlotRow where
  scientific_name : String
  nr_frag : Int
  cats : List (String × String)
deriving DecidableEq, Repr

/-- The merged table as read back by `pd.read_csv`: the object-dtype column
names other than `Scientific_name`, and the rows. -/
structure PTable where
  catCols : List String
  rows : List PlotRow
deriving DecidableEq, Repr

/-- `df.columns.str.replace('/', '_').str.replace(' ', '_')` on one name. -/
def normalizeCol (s : String) : String :=
  String.mk (s.data.map (fun c => if c = '/' ∨ c = ' ' then '_' else c))

/-- Column-name normalization on a row's categorical cells. -/
def normRow (r : PlotRow) : PlotRow :=
  { r with cats := r.cats.map (fun p => (normalizeCol p.1, p.2)) }

/-- `x.strip() if isinstance(x, str) else x` mapped over a row's cells. -/
def trimRow (r : PlotRow) : PlotRow :=
  { scientific_name := pyStrip r.scientific_name,
    nr_frag := r.nr_frag,
    cats := r.cats.map (fun p => (p.1, pyStrip p.2)) }

/-- Column normalization, cell trimming, and the host-contamination filter
`df = df[df['Scientific_name'] != 'Homo sapiens']`. -/
def plotPrep (t : PTable) : PTable :=
  { catCols := t.catCols.map normalizeCol,
    rows := ((t.rows.map normRow).map trimRow).filter
      (fun r => r.scientific_name != "Homo sapiens") }

/-- The two taxonomic buckets: rows whose scientific name contains
`"Virus"` case-insensitively (`isVirus = true`), and the complement. -/
def bucketRows (t : PTable) (isVirus : Bool) : List PlotRow :=
  if isVirus then
    (plotPrep t).rows.filter (fun r => pyContainsCI r.scientific_name "Virus")
  else
    (plotPrep t).rows.filter (fun r => ¬ pyContainsCI r.scientific_name "Virus")

/-- Python truthiness of the `top_N` argument (`None` from argparse or an
`int`): `if top_N:` runs only on a nonzero integer. -/
def pyTruthy : Option Int → Bool
  | none => false
  | some n => n != 0

/-- How many leading elements `DataFrame.head(n)` keeps from a list of the
given length (`head` of a negative `n` drops the last `-n` elements). -/
def headLen (n : Int) (len : Nat) : Nat :=
  if 0 ≤ n then n.toNat else len - (-n).toNat

/-- pandas `.head(n)`. -/
def pyHead {α : Type} (n : Int) (l : List α) : List α :=
  l.take (headLen n l.length)

/-- Distinct elements of a list, first occurrences first. -/
def distinctFirst {α : Type} [DecidableEq α] (l : List α) : List α :=
  l.foldl (fun acc x => if x ∈ acc then acc else acc ++ [x]) []

/-- Row count of a scientific name within a bucket. -/
def nameCounts (rows : List PlotRow) (v : String) : Nat :=
  (rows.map (fun r => r.scientific_name)).count v

/-- Stable insertion into a list sorted by descending count. -/
def insertByCountDesc (cnt : String → Nat) (x : String) :
    List String → List String
  | [] => [x]
  | y :: ys =>
    if cnt x ≤ cnt y then y :: insertByCountDesc cnt x ys else x :: y :: ys

/-- Stable sort by descending count (the order `value_counts()` presents its
index in; ties are kept in first-appearance order). -/
def sortByCountDesc (cnt : String → Nat) : List String → List String
  | [] => []
  | x :: xs => insertByCountDesc cnt x (sortByCountDesc cnt xs)

/-- `df_focus[focus].value_counts().head(top_N).index`: the `top_N` most
frequent scientific names of the bucket. -/
def topNCategories (rows : List PlotRow) (n : Int) : List String :=
  pyHead n (sortByCountDesc (nameCounts rows)
    (distinctFirst (rows.map (fun r => r.scientific_name))))

/-- `if top_N: df_focus = df_focus[df_focus[focus].isin(top_N_categories)]`. -/
def truncateTopN (rows : List PlotRow) (topN : Option Int) : List PlotRow :=
  if pyTruthy topN then
    rows.filter (fun r => (topNCategories rows (topN.getD 0)).contains r.scientific_name)
  else rows

/-- A row's cell in a categorical column. -/
def getCat (r : PlotRow) (c : String) : String :=
  ((r.cats.find? (fun p => p.1 = c)).map Prod.snd).getD ""

/-- The distinct `(focus, col)` group keys of
`df_focus.groupby([focus, col])`. -/
def groupPairs (rows : List PlotRow) (col : String) : List (String × String) :=
  distinctFirst (rows.map (fun r => (r.scientific_name, getCat r col)))

/-- `groupby([focus, col])['Nr_frag_direct_at_taxon'].mean().reset_index()`:
each group key with the mean of the measure over its rows. -/
def groupedMeans (rows : List PlotRow) (col : String) :
    List ((String × String) × ℚ) :=
  (groupPairs rows col).map (fun k =>
    let grp := rows.filter (fun r => r.scientific_name = k.1 ∧ getCat r col = k.2)
    (k, ((grp.map (fun r => r.nr_frag)).sum : ℚ) / (grp.length : ℚ)))

/-- The data behind the bar chart drawn for one bucket and one categorical
column, after the optional top-N truncation. -/
def chartData (t : PTable) (topN : Option Int) (isVirus : Bool)
    (col : String) : List ((String × String) × ℚ) :=
  groupedMeans (truncateTopN (bucketRows t isVirus) topN) col

/-! Concrete inputs used to instantiate the theorems below. -/

/-- A two-column metadata table with the single sample `s1`. -/
def m0 : Metadata := ⟨["id", "grp"], [["s1", "A"]]⟩

/-- One report file for `s1` whose single species line has direct count 7. -/
def files0 : List FileEntry :=
  [⟨"s1_report.txt", ["0.5\t10\t7\tS\t123\tVirus X"]⟩]

/-- A genus-rank line for taxon 123 of sample `s1`. -/
def lineG : String := "0.1\t5\t9\tG\t123\tX"

/-- A species-rank line for the same taxon 123 of sample `s1`. -/
def lineS : String := "0.5\t10\t7\tS\t123\tX"

/-- A report directory whose one file holds a genus line and a species line
for the same sample and taxon. -/
def filesDupRank : List FileEntry := [⟨"s1_report.txt", [lineG, lineS]⟩]

/-- Two species lines of the same sample and taxon with different values. -/
def fileDupKey : FileEntry :=
  ⟨"s1_report.txt", ["0.5\t10\t7\tS\t123\tX", "0.9\t20\t8\tS\t123\tY"]⟩

/-- A plot row with the given name, measure 1, and one `grp` cell. -/
def prow (name : String) : PlotRow := ⟨name, 1, [("grp", "g")]⟩

/-- A bucket with three distinct names of row counts 5, 3, and 1. -/
def rows7 : List PlotRow :=
  [prow "A", prow "A", prow "A", prow "A", prow "A",
   prow "B", prow "B", prow "B", prow "C"]

/-- Modelled from the spec's words for claim C2 only (the code is the
authority elsewhere): a header of exactly six report-derived names followed
directly by the metadata columns except the first. -/
def claimedSixHeaders (m : Metadata) : List String :=
  ["Perc_frag_cover", "Nr_frag_cover", "Nr_frag_direct_at_taxon",
   "Rank_code", "NCBI_ID", "Scientific_name"] ++ m.columns.tail

/-- A merged table holding a `Homo sapiens` row next to a viral and a
bacterial row. -/
def t6 : PTable :=
  ⟨["grp"],
   [⟨" Homo sapiens ", 9, [("grp", "g")]⟩,
    ⟨"Tomato virus A", 4, [("grp", "g")]⟩,
    ⟨"Escherichia coli", 2, [("grp", "g")]⟩]⟩

/-! Helper lemmas about the first-occurrence deduplicating fold. -/

theorem mem_dedupFold {α : Type} [DecidableEq α] (l : List α) (acc : List α)
    (x : α) :
    (x ∈ l.foldl (fun acc y => if y ∈ acc then acc else acc ++ [y]) acc) ↔
      x ∈ acc ∨ x ∈ l := by
  induction l generalizing acc with
  | nil => simp
  | cons a l ih =>
    rw [List.foldl_cons, ih]
    by_cases ha : a ∈ acc
    · simp only [if_pos ha, List.mem_cons]
      constructor
      · rintro (h | h)
        · exact Or.inl h
        · exact Or.inr (Or.inr h)
      · rintro (h | h | h)
        · exact Or.inl h
        · exact Or.inl (h ▸ ha)
        · exact Or.inr h
    · simp only [if_neg ha, List.mem_append, List.mem_singleton, List.mem_cons]
      tauto

theorem nodup_dedupFold {α : Type} [DecidableEq α] (l : List α)
    (acc : List α) (h : acc.Nodup) :
    (l.foldl (fun acc y => if y ∈ acc then acc else acc ++ [y]) acc).Nodup := by
  induction l generalizing acc with
  | nil => exact h
  | cons a l ih =>
    rw [List.foldl_cons]
    by_cases ha : a ∈ acc
    · rw [if_pos ha]; exact ih acc h
    · rw [if_neg ha]
      refine ih _ ?_
      simp only [List.nodup_append, List.nodup_cons, List.nodup_nil]
      refine ⟨h, by simp, ?_⟩
      intro x hx hxa
      simp only [List.mem_singleton] at hxa
      exact ha (hxa ▸ hx)

theorem mem_dedupExtend (ks l : List String) (x : String) :
    x ∈ dedupExtend ks l ↔ x ∈ ks ∨ x ∈ l :=
  mem_dedupFold l ks x

theorem nodup_dedupExtend (ks l : List String) (h : ks.Nodup) :
    (dedupExtend ks l).Nodup :=
  nodup_dedupFold l ks h

theorem dedupExtend_append (ks a b : List String) :
    dedupExtend ks (a ++ b) = dedupExtend (dedupExtend ks a) b := by
  unfold dedupExtend
  exact List.foldl_append ..

theorem mem_distinctFirst {α : Type} [DecidableEq α] (l : List α) (x : α) :
    x ∈ distinctFirst l ↔ x ∈ l := by
  unfold distinctFirst
  rw [mem_dedupFold]
  simp

/-! Helper lemmas about dictionary insertion and the aggregation loop. -/

theorem keysOf_odInsert {α : Type} (d : List (String × α)) (k : String)
    (v : α) :
    keysOf (odInsert d k v) =
      if k ∈ keysOf d then keysOf d else keysOf d ++ [k] := by
  unfold odInsert keysOf
  split
  · rw [List.map_map]
    refine List.map_congr_left (fun p _ => ?_)
    by_cases hp : p.1 = k
    · simp [hp]
    · simp [hp]
  · simp

theorem keysOf_lineStep (m : Metadata) (rc : Int) (fn : String)
    (acc : AggMap) (pl : ParsedLine) :
    keysOf (lineStep m rc fn acc pl) =
      dedupExtend (keysOf acc) (qualKeyP m rc fn pl).toList := by
  unfold lineStep qualKeyP
  by_cases h1 : pl.rank_code = "S" ∧ rc ≤ pl.nr_frag_direct_at_taxon
  · rw [if_pos h1]
    cases hm : metaLookup m (extracted_part fn) with
    | none =>
      rw [if_neg (by simp [hm, h1])]
      rfl
    | some row =>
      rw [if_pos (by simp [hm, h1])]
      rw [keysOf_odInsert]
      simp [dedupExtend]
  · rw [if_neg h1, if_neg (by tauto)]
    rfl


theorem processLine_eq_some (m : Metadata) (rc : Int) (fn : String)
    (acc out : AggMap) (l : String)
    (h : processLine m rc fn acc l = some out) :
    ∃ pl, parseReportLine l = some pl ∧ out = lineStep m rc fn acc pl := by
  unfold processLine at h
  cases hp : parseReportLine l with
  | none => rw [hp] at h; exact absurd h (by simp)
  | some pl =>
    rw [hp] at h
    exact ⟨pl, rfl, by simpa using h.symm⟩

theorem keysOf_processLines (m : Metadata) (rc : Int) (fn : String) :
    ∀ (ls : List String) (acc out : AggMap),
      processLines m rc fn acc ls = some out →
      keysOf out = dedupExtend (keysOf acc) (ls.filterMap (qualKey m rc fn))
  | [], acc, out, h => by
    simp only [processLines, Option.some_inj] at h
    simp [← h, dedupExtend]
  | l :: ls, acc, out, h => by
    rw [processLines] at h
    cases hl : processLine m rc fn acc l with
    | none => rw [hl] at h; exact absurd h (by simp)
    | some acc2 =>
      rw [hl] at h
      obtain ⟨pl, hp, hstep⟩ := processLine_eq_some m rc fn acc acc2 l hl
      have ih := keysOf_processLines m rc fn ls acc2 out h
      rw [ih, hstep, keysOf_lineStep]
      rw [List.filterMap_cons]
      cases hq : qualKey m rc fn l with
      | none =>
        have : qualKeyP m rc fn pl = none := by
          unfold qualKey at hq; rw [hp] at hq; simpa using hq
        rw [this]
        rfl
      | some k =>
        have : qualKeyP m rc fn pl = some k := by
          unfold qualKey at hq; rw [hp] at hq; simpa using hq
        rw [this]
        simp [dedupExtend]

theorem keysOf_processFiles (m : Metadata) (rc : Int) :
    ∀ (fs : List FileEntry) (acc out : AggMap),
      processFiles m rc acc fs = some out →
      keysOf out = dedupExtend (keysOf acc) (qualKeySeq m rc fs)
  | [], acc, out, h => by
    simp only [processFiles, Option.some_inj] at h
    simp [← h, qualKeySeq, dedupExtend]
  | f :: fs, acc, out, h => by
    rw [processFiles] at h
    rw [qualKeySeq]
    by_cases he : strEndsWith f.name "_report.txt"
    · rw [if_pos he] at h
      rw [if_pos he]
      cases hls : processLines m rc f.name acc f.lines with
      | none => rw [hls] at h; exact absurd h (by simp)
      | some acc2 =>
        rw [hls] at h
        have ih := keysOf_processFiles m rc fs acc2 out h
        rw [ih, keysOf_processLines m rc f.name f.lines acc acc2 hls,
          dedupExtend_append]
    · rw [if_neg he] at h
      rw [if_neg he]
      exact keysOf_processFiles m rc fs acc out h

theorem mem_qualKeySeq (m : Metadata) (rc : Int) (k : String) :
    ∀ fs : List FileEntry,
      k ∈ qualKeySeq m rc fs ↔
        ∃ f ∈ fs, strEndsWith f.name "_report.txt" = true ∧
          ∃ l ∈ f.lines, qualKey m rc f.name l = some k
  | [] => by simp [qualKeySeq]
  | f :: fs => by
    rw [qualKeySeq]
    by_cases he : strEndsWith f.name "_report.txt"
    · rw [if_pos he]
      simp only [List.mem_append, List.mem_filterMap,
        mem_qualKeySeq m rc k fs, List.mem_cons]
      constructor
      · rintro (⟨l, hl, hq⟩ | ⟨g, hg, hge, hrest⟩)
        · exact ⟨f, Or.inl rfl, he, l, hl, hq⟩
        · exact ⟨g, Or.inr hg, hge, hrest⟩
      · rintro ⟨g, hg | hg, hge, l, hl, hq⟩
        · exact Or.inl ⟨l, hg ▸ hl, hg ▸ hq⟩
        · exact Or.inr ⟨g, hg, hge, l, hl, hq⟩
    · rw [if_neg he]
      rw [mem_qualKeySeq m rc k fs]
      constructor
      · rintro ⟨g, hg, hge, hrest⟩
        exact ⟨g, List.mem_cons_of_mem f hg, hge, hrest⟩
      · rintro ⟨g, hg, hge, hrest⟩
        rcases List.mem_cons.mp hg with hg | hg
        · exact absurd (hg ▸ hge) (by simpa using he)
        · exact ⟨g, hg, hge, hrest⟩

theorem processFiles_append (m : Metadata) (rc : Int) :
    ∀ (fs gs : List FileEntry) (acc : AggMap),
      processFiles m rc acc (fs ++ gs) =
        (processFiles m rc acc fs).bind (fun a => processFiles m rc a gs)
  | [], gs, acc => by simp [processFiles]
  | f :: fs, gs, acc => by
    rw [List.cons_append, processFiles, processFiles]
    by_cases he : strEndsWith f.name "_report.txt"
    · rw [if_pos he, if_pos he]
      cases processLines m rc f.name acc f.lines with
      | none => rfl
      | some acc2 => exact processFiles_append m rc fs gs acc2
    · rw [if_neg he, if_neg he]
      exact processFiles_append m rc fs gs acc

theorem processFiles_skip (m : Metadata) (rc : Int) (acc : AggMap)
    (f : FileEntry) (fs : List FileEntry)
    (h : strEndsWith f.name "_report.txt" = false) :
    processFiles m rc acc (f :: fs) = processFiles m rc acc fs := by
  rw [processFiles, if_neg (by simp [h])]

/-! Helper lemmas about character-level split and join. -/

theorem splitChar_cons (sep c : Char) (cs : List Char) :
    splitChar sep (c :: cs) =
      match splitChar sep cs with
      | [] => [[]]
      | h :: t => if c = sep then [] :: h :: t else (c :: h) :: t := rfl

theorem splitChar_ne_nil (sep : Char) : ∀ cs : List Char, splitChar sep cs ≠ []
  | [] => by simp [splitChar]
  | c :: cs => by
    rw [splitChar_cons]
    cases h : splitChar sep cs with
    | nil => simp
    | cons a t =>
      show (if c = sep then [] :: a :: t else (c :: a) :: t) ≠ []
      split <;> simp

theorem splitChar_append_sep (sep : Char) :
    ∀ xs ys : List Char,
      splitChar sep (xs ++ sep :: ys) = splitChar sep xs ++ splitChar sep ys
  | [], ys => by
    rw [List.nil_append, splitChar_cons]
    cases h : splitChar sep ys with
    | nil => exact absurd h (splitChar_ne_nil sep ys)
    | cons a t =>
      show (if sep = sep then [] :: a :: t else (sep :: a) :: t) =
        splitChar sep [] ++ a :: t
      rw [if_pos rfl]
      rfl
  | x :: xs, ys => by
    rw [List.cons_append, splitChar_cons, splitChar_append_sep sep xs ys]
    cases h : splitChar sep xs with
    | nil => exact absurd h (splitChar_ne_nil sep xs)
    | cons a t =>
      show (if x = sep then [] :: a :: (t ++ splitChar sep ys)
            else (x :: a) :: (t ++ splitChar sep ys)) =
        splitChar sep (x :: xs) ++ splitChar sep ys
      rw [splitChar_cons, h]
      show _ = (if x = sep then [] :: a :: t else (x :: a) :: t) ++ splitChar sep ys
      split <;> simp

theorem splitChar_of_not_mem (sep : Char) :
    ∀ ys : List Char, sep ∉ ys → splitChar sep ys = [ys]
  | [], _ => rfl
  | y :: ys, h => by
    rw [splitChar_cons,
      splitChar_of_not_mem sep ys (fun hc => h (List.mem_cons_of_mem y hc))]
    show (if y = sep then [] :: [ys] else [y :: ys]) = [y :: ys]
    rw [if_neg (fun (hy : y = sep) => h (hy ▸ List.mem_cons_self y ys))]

theorem joinChar_splitChar (sep : Char) :
    ∀ cs : List Char, joinChar sep (splitChar sep cs) = cs
  | [] => rfl
  | c :: cs => by
    rw [splitChar_cons]
    cases h : splitChar sep cs with
    | nil => exact absurd h (splitChar_ne_nil sep cs)
    | cons a t =>
      have ih : joinChar sep (a :: t) = cs := by
        rw [← h]; exact joinChar_splitChar sep cs
      show joinChar sep (if c = sep then [] :: a :: t else (c :: a) :: t) = c :: cs
      by_cases hc : c = sep
      · rw [if_pos hc]
        show [] ++ sep :: joinChar sep (a :: t) = c :: cs
        rw [List.nil_append, ih, hc]
      · rw [if_neg hc]
        cases t with
        | nil =>
          show c :: a = c :: cs
          rw [show a = cs from ih]
        | cons b u =>
          show (c :: a) ++ sep :: joinChar sep (b :: u) = c :: cs
          rw [List.cons_append]
          have ha : a ++ sep :: joinChar sep (b :: u) = joinChar sep (a :: b :: u) := rfl
          rw [ha, ih]

theorem extracted_part_append_report (s : String) :
    extracted_part (s ++ "_report.txt") = s := by
  unfold extracted_part pySplit pyJoin
  have hdata : (s ++ "_report.txt").data = s.data ++ '_' :: "report.txt".data := by
    cases s with
    | mk cs => rfl
  rw [hdata, splitChar_append_sep,
    splitChar_of_not_mem '_' "report.txt".data (by decide)]
  rw [List.map_append, List.map_singleton, List.dropLast_concat, List.map_map]
  rw [show String.data ∘ String.mk = id from rfl, List.map_id, joinChar_splitChar]

/-! Helper lemmas about the plot pipeline. -/

theorem mem_insertByCountDesc (cnt : String → Nat) (x y : String) :
    ∀ l : List String, y ∈ insertByCountDesc cnt x l ↔ y = x ∨ y ∈ l
  | [] => by simp [insertByCountDesc]
  | z :: zs => by
    rw [insertByCountDesc]
    split
    · rw [List.mem_cons, mem_insertByCountDesc cnt x y zs, List.mem_cons]
      tauto
    · simp only [List.mem_cons]

theorem pairwise_insertByCountDesc (cnt : String → Nat) (x : String) :
    ∀ l : List String,
      List.Pairwise (fun a b => cnt b ≤ cnt a) l →
      List.Pairwise (fun a b => cnt b ≤ cnt a) (insertByCountDesc cnt x l)
  | [], _ => by simp [insertByCountDesc]
  | z :: zs, h => by
    rw [insertByCountDesc]
    rcases List.pairwise_cons.mp h with ⟨hz, hzs⟩
    split
    · refine List.pairwise_cons.mpr ⟨?_, pairwise_insertByCountDesc cnt x zs hzs⟩
      intro b hb
      rcases (mem_insertByCountDesc cnt x b zs).mp hb with hb | hb
      · subst hb
        assumption
      · exact hz b hb
    · refine List.pairwise_cons.mpr ⟨?_, h⟩
      intro b hb
      rcases List.mem_cons.mp hb with hb | hb
      · subst hb
        omega
      · exact le_trans (hz b hb) (by omega)

theorem mem_sortByCountDesc (cnt : String → Nat) (y : String) :
    ∀ l : List String, y ∈ sortByCountDesc cnt l ↔ y ∈ l
  | [] => by simp [sortByCountDesc]
  | x :: xs => by
    rw [sortByCountDesc, mem_insertByCountDesc, mem_sortByCountDesc cnt y xs,
      List.mem_cons]

theorem pairwise_sortByCountDesc (cnt : String → Nat) :
    ∀ l : List String,
      List.Pairwise (fun a b => cnt b ≤ cnt a) (sortByCountDesc cnt l)
  | [] => by simp [sortByCountDesc]
  | x :: xs =>
    pairwise_insertByCountDesc cnt x (sortByCountDesc cnt xs)
      (pairwise_sortByCountDesc cnt xs)

theorem topNCategories_dominates (rows : List PlotRow) (n : Int)
    (x y : String) (hx : x ∈ topNCategories rows n)
    (hy : y ∈ rows.map (fun r => r.scientific_name))
    (hyn : y ∉ topNCategories rows n) :
    nameCounts rows y ≤ nameCounts rows x := by
  unfold topNCategories pyHead at hx hyn
  set cnt := nameCounts rows with hcnt
  set l := sortByCountDesc cnt
    (distinctFirst (rows.map (fun r => r.scientific_name))) with hl
  set k := headLen n l.length with hk
  have hyl : y ∈ l := by
    rw [hl, mem_sortByCountDesc, mem_distinctFirst]
    exact hy
  have hsplit : l = l.take k ++ l.drop k := (List.take_append_drop k l).symm
  have hpw : List.Pairwise (fun a b => cnt b ≤ cnt a) (l.take k ++ l.drop k) := by
    rw [← hsplit]
    exact pairwise_sortByCountDesc cnt _
  have hyd : y ∈ l.drop k := by
    rcases List.mem_append.mp (hsplit ▸ hyl) with hmem | hmem
    · exact absurd hmem hyn
    · exact hmem
  exact (List.pairwise_append.mp hpw).2.2 x hx y hyd

theorem mem_truncateTopN (rows : List PlotRow) (topN : Option Int)
    (r : PlotRow) (h : r ∈ truncateTopN rows topN) : r ∈ rows := by
  unfold truncateTopN at h
  split at h
  · exact (List.mem_filter.mp h).1
  · exact h

theorem mem_groupedMeans (rows : List PlotRow) (col : String)
    (e : (String × String) × ℚ) (h : e ∈ groupedMeans rows col) :
    ∃ r ∈ rows, e.1.1 = r.scientific_name := by
  unfold groupedMeans at h
  rcases List.mem_map.mp h with ⟨k, hk, hke⟩
  unfold groupPairs at hk
  rw [mem_distinctFirst] at hk
  rcases List.mem_map.mp hk with ⟨r, hr, hrk⟩
  refine ⟨r, hr, ?_⟩
  rw [← hke, ← hrk]

theorem mem_bucketRows_ne_homo (t : PTable) (b : Bool) (r : PlotRow)
    (h : r ∈ bucketRows t b) : (r.scientific_name != "Homo sapiens") = true := by
  have hp : r ∈ (plotPrep t).rows := by
    unfold bucketRows at h
    split at h <;> exact (List.mem_filter.mp h).1
  unfold plotPrep at hp
  exact (List.mem_filter.mp hp).2

/-! The claims. -/

/-- C1 (counterexample to the claim as stated): the genus line `lineG` fails
the rank filter, yet the merged output holds exactly one record under that
line's own sample+taxon key `s1123`, because the species line of the same
file produces the same key.  The claimed per-line "if and only if" is
therefore false in the only-if direction. -/
theorem per_line_iff_counterexample :
    lineKeyOf "s1_report.txt" lineG = some "s1123"
  ∧ (parseReportLine lineG).map (fun pl => pl.rank_code) = some "G"
  ∧ qualKey m0 5 "s1_report.txt" lineG = none
  ∧ (keysOf ((processFiles m0 5 [] filesDupRank).getD [])).count "s1123" = 1 := by
  decide

/-- C1 (amended, key-level): a sample+taxon key appears in the merged output
exactly once if and only if some line of some scanned (report-suffixed) file
qualifies for it: its rank code is `S`, its direct count is at least the
threshold (boundary inclusive), its derived sample id has a metadata row,
and it derives that key.  Qualifying lines always yield their key exactly
once; lines failing the rank, threshold or metadata test contribute no row
themselves. -/
theorem merged_key_exactly_once_iff (m : Metadata) (rc : Int)
    (files : List FileEntry) (agg : AggMap) (k : String)
    (h : processFiles m rc [] files = some agg) :
    (keysOf agg).count k = 1 ↔
      ∃ f ∈ files, strEndsWith f.name "_report.txt" = true ∧
        ∃ l ∈ f.lines, qualKey m rc f.name l = some k := by
  have hkeys : keysOf agg = firstDedup (qualKeySeq m rc files) := by
    have hk := keysOf_processFiles m rc files [] agg h
    simpa [keysOf, firstDedup] using hk
  have hnd : (keysOf agg).Nodup := by
    rw [hkeys]
    exact nodup_dedupExtend [] _ List.nodup_nil
  have hmem : k ∈ keysOf agg ↔ k ∈ qualKeySeq m rc files := by
    rw [hkeys]
    unfold firstDedup
    rw [mem_dedupExtend]
    simp
  rw [← mem_qualKeySeq m rc k files, ← hmem]
  constructor
  · intro hc
    exact List.count_pos_iff.mp (by omega)
  · intro hm
    have h1 : List.count k (keysOf agg) ≤ 1 :=
      List.nodup_iff_count_le_one.mp hnd k
    have h2 : 0 < List.count k (keysOf agg) := List.count_pos_iff.mpr hm
    omega

/-- C1 witness: with threshold 7, the count-7 species line of `files0` (the
inclusive boundary) yields its key exactly once. -/
theorem merged_key_exactly_once_iff_witness :
    (keysOf ((processFiles m0 7 [] files0).getD [])).count "s1123" = 1 :=
  (merged_key_exactly_once_iff m0 7 files0
    ((processFiles m0 7 [] files0).getD []) "s1123" (by decide)).mpr (by decide)

/-- C2 (counterexample to the claim as stated): the written header is not six
report-derived names followed by the metadata tail — a seventh fixed name,
`SampleID`, sits between them. -/
theorem six_header_counterexample : headers m0 ≠ claimedSixHeaders m0 := by
  decide

/-- C2 (amended): the header row consists of the six report-derived names,
then the fixed `SampleID` column, then all metadata columns except the
join-key (first) column in their original order; and the data rows follow
file/line first-encounter order of keys, not sorted order. -/
theorem merged_header_row_order (m : Metadata) (rc : Int)
    (files : List FileEntry) (agg : AggMap)
    (h : processFiles m rc [] files = some agg) :
    headers m = ["Perc_frag_cover", "Nr_frag_cover", "Nr_frag_direct_at_taxon",
      "Rank_code", "NCBI_ID", "Scientific_name"] ++ ["SampleID"] ++ m.columns.tail
  ∧ keysOf agg = firstDedup (qualKeySeq m rc files)
  ∧ aggregate_kraken_results files m rc =
      some (String.intercalate "\t" (headers m) ++ "\n" ++
        String.join (agg.map (fun p => renderRow (headers m) p.2 ++ "\n"))) := by
  refine ⟨rfl, ?_, ?_⟩
  · have hk := keysOf_processFiles m rc files [] agg h
    simpa [keysOf, firstDedup] using hk
  · unfold aggregate_kraken_results
    rw [h]
    rfl

/-- C2 witness: the amended statement at the concrete one-file directory. -/
theorem merged_header_row_order_witness :
    headers m0 = ["Perc_frag_cover", "Nr_frag_cover", "Nr_frag_direct_at_taxon",
      "Rank_code", "NCBI_ID", "Scientific_name"] ++ ["SampleID"] ++ m0.columns.tail
  ∧ keysOf ((processFiles m0 7 [] files0).getD []) =
      firstDedup (qualKeySeq m0 7 files0)
  ∧ aggregate_kraken_results files0 m0 7 =
      some (String.intercalate "\t" (headers m0) ++ "\n" ++
        String.join (((processFiles m0 7 [] files0).getD []).map
          (fun p => renderRow (headers m0) p.2 ++ "\n"))) :=
  merged_header_row_order m0 7 files0 ((processFiles m0 7 [] files0).getD [])
    (by decide)

/-- C3: when two qualifying lines of a scanned file produce the same
composite key, aggregation succeeds (no error), and the merged output holds
exactly one record under that key — the one built from the later line. -/
theorem duplicate_key_last_write_wins (m : Metadata) (rc : Int)
    (fn L1 L2 k : String) (p1 p2 : ParsedLine) (row : List String)
    (h1 : parseReportLine L1 = some p1) (h2 : parseReportLine L2 = some p2)
    (hq1 : qualKeyP m rc fn p1 = some k) (hq2 : qualKeyP m rc fn p2 = some k)
    (hend : strEndsWith fn "_report.txt" = true)
    (hrow : metaLookup m (extracted_part fn) = some row) :
    processFiles m rc [] [⟨fn, [L1, L2]⟩] =
      some [(k, mkRecord p2 (extracted_part fn) (sampleMetaDict m row))] := by
  have hc1 : p1.rank_code = "S" ∧ rc ≤ p1.nr_frag_direct_at_taxon ∧
      extracted_part fn ++ p1.ncbi_ID = k := by
    unfold qualKeyP at hq1
    split at hq1
    case isTrue hcond => exact ⟨hcond.1, hcond.2.1, by simpa using hq1⟩
    case isFalse => exact absurd hq1 (by simp)
  have hc2 : p2.rank_code = "S" ∧ rc ≤ p2.nr_frag_direct_at_taxon ∧
      extracted_part fn ++ p2.ncbi_ID = k := by
    unfold qualKeyP at hq2
    split at hq2
    case isTrue hcond => exact ⟨hcond.1, hcond.2.1, by simpa using hq2⟩
    case isFalse => exact absurd hq2 (by simp)
  obtain ⟨hr1, hle1, hk1⟩ := hc1
  obtain ⟨hr2, hle2, hk2⟩ := hc2
  have hstep1 : lineStep m rc fn [] p1 =
      [(k, mkRecord p1 (extracted_part fn) (sampleMetaDict m row))] := by
    simp only [lineStep]
    rw [if_pos ⟨hr1, hle1⟩, hrow, hk1]
    simp [odInsert]
  have hstep2 : lineStep m rc fn
      [(k, mkRecord p1 (extracted_part fn) (sampleMetaDict m row))] p2 =
      [(k, mkRecord p2 (extracted_part fn) (sampleMetaDict m row))] := by
    simp only [lineStep]
    rw [if_pos ⟨hr2, hle2⟩, hrow, hk2]
    simp [odInsert]
  have hline1 : processLine m rc fn [] L1 =
      some [(k, mkRecord p1 (extracted_part fn) (sampleMetaDict m row))] := by
    unfold processLine
    rw [h1, Option.map_some', hstep1]
  have hline2 : processLine m rc fn
      [(k, mkRecord p1 (extracted_part fn) (sampleMetaDict m row))] L2 =
      some [(k, mkRecord p2 (extracted_part fn) (sampleMetaDict m row))] := by
    unfold processLine
    rw [h2, Option.map_some', hstep2]
  have hlines : processLines m rc fn [] [L1, L2] =
      some [(k, mkRecord p2 (extracted_part fn) (sampleMetaDict m row))] := by
    rw [processLines, hline1]
    show processLines m rc fn
      [(k, mkRecord p1 (extracted_part fn) (sampleMetaDict m row))] [L2] =
      some [(k, mkRecord p2 (extracted_part fn) (sampleMetaDict m row))]
    rw [processLines, hline2]
    show processLines m rc fn
      [(k, mkRecord p2 (extracted_part fn) (sampleMetaDict m row))] [] =
      some [(k, mkRecord p2 (extracted_part fn) (sampleMetaDict m row))]
    rfl
  rw [processFiles, if_pos hend, hlines]
  show processFiles m rc
    [(k, mkRecord p2 (extracted_part fn) (sampleMetaDict m row))] [] =
    some [(k, mkRecord p2 (extracted_part fn) (sampleMetaDict m row))]
  rfl

/-- C3 witness: the two species lines of `fileDupKey` collide on key
`s1123`; the merged output holds the later line's record only. -/
theorem duplicate_key_last_write_wins_witness :
    processFiles m0 5 [] [fileDupKey] =
      some [("s1123", mkRecord ⟨"0.9", "20", 8, "S", "123", "Y"⟩
        (extracted_part "s1_report.txt") (sampleMetaDict m0 ["s1", "A"]))] :=
  duplicate_key_last_write_wins m0 5 "s1_report.txt"
    "0.5\t10\t7\tS\t123\tX" "0.9\t20\t8\tS\t123\tY" "s1123"
    ⟨"0.5", "10", 7, "S", "123", "X"⟩ ⟨"0.9", "20", 8, "S", "123", "Y"⟩
    ["s1", "A"] (by decide) (by decide) (by decide) (by decide) (by decide)
    (by decide)

/-- C4: aggregation is idempotent over an unchanged report directory: the
merged file `merged_kraken1.tsv` a previous run left in the directory does
not end in the report suffix, so a rerun that also lists it produces the
byte-identical merged table. -/
theorem aggregate_idempotent_with_merged_file (m : Metadata) (rc : Int)
    (files : List FileEntry) (ls : List String) :
    aggregate_kraken_results (files ++ [⟨"merged_kraken1.tsv", ls⟩]) m rc =
      aggregate_kraken_results files m rc := by
  unfold aggregate_kraken_results
  rw [processFiles_append]
  have hskip : ∀ acc : AggMap,
      processFiles m rc acc [⟨"merged_kraken1.tsv", ls⟩] = some acc := by
    intro acc
    rw [processFiles_skip m rc acc _ []
      (show strEndsWith "merged_kraken1.tsv" "_report.txt" = false by decide)]
    rfl
  cases processFiles m rc [] files with
  | none => rfl
  | some agg => simp [hskip]

/-- C5: in precomputed-report mode `process_sample` is independent of the
external tools and of the read files, invokes no tool, and returns the path
`output_dir/<sample>_report.txt` when it exists or the explicit
file-not-found error naming that path when it does not. -/
theorem precomputed_mode_spec (tools tools2 : ExtTools)
    (fsEx : String → Bool) (fw rv fw2 rv2 base_name bidx kdb bidx2 kdb2
      output_dir : String) (threads threads2 : Nat) (rb rb2 : Bool) :
    process_sample tools fsEx fw rv base_name bidx kdb output_dir
        threads rb true =
      process_sample tools2 fsEx fw2 rv2 base_name bidx2 kdb2 output_dir
        threads2 rb2 true
  ∧ (process_sample tools fsEx fw rv base_name bidx kdb output_dir
      threads rb true).1 = []
  ∧ (process_sample tools fsEx fw rv base_name bidx kdb output_dir
      threads rb true).2 =
      (if fsEx (pyPathJoin output_dir (base_name ++ "_report.txt")) then
        Except.ok (pyPathJoin output_dir (base_name ++ "_report.txt"))
      else Except.error ("Precomputed Kraken2 report not found: " ++
        pyPathJoin output_dir (base_name ++ "_report.txt"))) := by
  have hps : ∀ (tl : ExtTools) (a b c d : String) (th : Nat) (r : Bool),
      process_sample tl fsEx a b base_name c d output_dir th r true =
        (if fsEx (pyPathJoin output_dir (base_name ++ "_report.txt")) then
          ([], Except.ok (pyPathJoin output_dir (base_name ++ "_report.txt")))
        else ([], Except.error ("Precomputed Kraken2 report not found: " ++
          pyPathJoin output_dir (base_name ++ "_report.txt")))) := by
    intro tl a b c d th r
    simp only [process_sample, not_true, if_false]
  refine ⟨?_, ?_, ?_⟩
  · rw [hps, hps]
  · rw [hps]
    split <;> rfl
  · rw [hps]
    split <;> rfl

/-- C6: in plot generation, a record whose (trimmed) scientific name is
exactly `Homo sapiens` is excluded before bucketing: neither bucket nor any
grouped chart data of either bucket contains that category. -/
theorem homo_sapiens_never_in_buckets (t : PTable) (topN : Option Int)
    (b : Bool) (col : String) :
    ((bucketRows t b).all (fun r => r.scientific_name != "Homo sapiens")) = true
  ∧ ((chartData t topN b col).all (fun e => e.1.1 != "Homo sapiens")) = true := by
  constructor
  · rw [List.all_eq_true]
    intro r hr
    exact mem_bucketRows_ne_homo t b r hr
  · rw [List.all_eq_true]
    intro e he
    unfold chartData at he
    obtain ⟨r, hr, hname⟩ := mem_groupedMeans _ col e he
    have hb : r ∈ bucketRows t b := mem_truncateTopN _ topN r hr
    have hne := mem_bucketRows_ne_homo t b r hb
    rw [hname]
    exact hne

/-- C7: with a truthy top-N limit, each bucket is restricted before grouping
to the rows whose name is among the top-N most frequent names; every grouped
name lies in that top-N set, and every kept name has at least the row count
of every dropped name. -/
theorem topN_truncation_most_frequent (rows : List PlotRow) (n : Int)
    (col : String) (h : pyTruthy (some n) = true) :
    truncateTopN rows (some n) =
      rows.filter (fun r => (topNCategories rows n).contains r.scientific_name)
  ∧ ((groupedMeans (truncateTopN rows (some n)) col).all
      (fun e => (topNCategories rows n).contains e.1.1)) = true
  ∧ ∀ x ∈ topNCategories rows n, ∀ y ∈ rows.map (fun r => r.scientific_name),
      y ∉ topNCategories rows n → nameCounts rows y ≤ nameCounts rows x := by
  have htr : truncateTopN rows (some n) =
      rows.filter (fun r => (topNCategories rows n).contains r.scientific_name) := by
    unfold truncateTopN
    rw [if_pos h]
    rfl
  refine ⟨htr, ?_, ?_⟩
  · rw [List.all_eq_true]
    intro e he
    obtain ⟨r, hr, hname⟩ := mem_groupedMeans _ col e he
    rw [htr] at hr
    have hfil := (List.mem_filter.mp hr).2
    rw [hname]
    exact hfil
  · intro x hx y hy hyn
    exact topNCategories_dominates rows n x y hx hy hyn

/-- C7 witness: with `top_N = 2` and three names of row counts 5, 3, 1, the
top-N index is exactly the two most frequent names and the truncated bucket
drops every row of the third. -/
theorem topN_truncation_most_frequent_witness :
    pyTruthy (some 2) = true
  ∧ ((groupedMeans (truncateTopN rows7 (some 2)) "grp").all
      (fun e => (topNCategories rows7 2).contains e.1.1)) = true
  ∧ topNCategories rows7 2 = ["A", "B"]
  ∧ (truncateTopN rows7 (some 2)).map (fun r => r.scientific_name) =
      ["A", "A", "A", "A", "A", "B", "B", "B"] :=
  ⟨by decide, (topN_truncation_most_frequent rows7 2 "grp" (by decide)).2.1,
   by decide, by decide⟩

/-- C8: the aggregator skips any directory entry whose name does not end in
the report suffix, and the sample identifier derived from
`<sample>_report.txt` is exactly `<sample>`, even when the sample name
itself contains underscores. -/
theorem report_suffix_and_sample_id (s : String) (m : Metadata) (rc : Int)
    (acc : AggMap) (f : FileEntry) (fs : List FileEntry)
    (h : strEndsWith f.name "_report.txt" = false) :
    extracted_part (s ++ "_report.txt") = s
  ∧ processFiles m rc acc (f :: fs) = processFiles m rc acc fs :=
  ⟨extracted_part_append_report s, processFiles_skip m rc acc f fs h⟩

/-- C8 witness: an underscored sample name round-trips through the filename,
and a non-report file is skipped. -/
theorem report_suffix_and_sample_id_witness :
    extracted_part ("my_samp" ++ "_report.txt") = "my_samp"
  ∧ processFiles m0 0 [] [⟨"merged_kraken1.tsv", ["x"]⟩] =
      processFiles m0 0 [] [] :=
  report_suffix_and_sample_id "my_samp" m0 0 []
    ⟨"merged_kraken1.tsv", ["x"]⟩ [] (by decide)

/-- C9: report-line parsing is unguarded: a line with fewer than six
tab-separated fields, or with a non-integer third field, makes the whole
aggregation fail (an uncaught exception, `none` here) instead of being
skipped. -/
theorem malformed_line_unhandled :
    parseReportLine "12.5\t100" = none
  ∧ aggregate_kraken_results [⟨"bad_report.txt", ["12.5\t100"]⟩] m0 0 = none
  ∧ parseReportLine "0.1\t2\tabc\tS\t11\tX" = none
  ∧ aggregate_kraken_results [⟨"bad_report.txt", ["0.1\t2\tabc\tS\t11\tX"]⟩]
      m0 0 = none := by
  decide

/-- C10: `top_N = 0` is falsy in Python, so the truncation branch is skipped
entirely: passing 0 is identical to passing no limit, rather than keeping
zero names. -/
theorem topN_zero_is_no_limit (rows : List PlotRow) (t : PTable) (b : Bool)
    (col : String) :
    truncateTopN rows (some 0) = rows
  ∧ truncateTopN rows none = rows
  ∧ chartData t (some 0) b col = chartData t none b col := by
  refine ⟨rfl, rfl, rfl⟩

end Kraken
